import Mathlib

/-!
Shallow embedding of the DefinePlugin constant-substitution and
build-cache-invalidation engine (src/lib/DefinePlugin.js) and proofs about it.
-/

namespace DefineSpec

/-- Build metadata of a module (`module.buildInfo` in the source): a mutable
cacheable flag and a file-dependency set. -/
structure BuildInfo where
  cacheable : Bool
  fileDependencies : List String
deriving Repr, DecidableEq

/-- A module as seen by this plugin: its request string and its build info. -/
structure Module where
  request : String
  buildInfo : BuildInfo
deriving Repr, DecidableEq

/-- The parser state relevant to the plugin: `parser.state.module`.  A freshly
constructed parser (`new JavascriptParser("auto")`) carries no module: that is
the neutral context used by the reconciler's recomputation. -/
structure ParserState where
  module : Option Module
deriving Repr, DecidableEq

/-- The state of a freshly constructed parser: no module (neutral context). -/
def neutralParser : ParserState := ⟨none⟩

/-- The `fileDependencies` field of a RuntimeValue: either the literal `true`
("never cacheable") or a list of dependency paths. -/
inductive FileDeps where
  | isTrue
  | paths (ps : List String)
deriving Repr

/-- The `asiSafe` argument of `toCode`/`stringifyObj`:
`unneeded` = null, `safe` = true, `notSafe` = false, `unknown` = undefined. -/
inductive AsiSafe where
  | unneeded
  | safe
  | notSafe
  | unknown
deriving Repr, DecidableEq

/-- A definition-tree value (`CodeValue` in the source): JS primitives,
regular expressions, functions (kept as their source text), runtime values
(a compute function over an optional module context plus declared file
dependencies), arrays and plain objects. -/
inductive CodeValue where
  | nullV
  | undef
  | negZero
  | num (n : Int)
  | boolV (b : Bool)
  | str (s : String)
  | bigint (n : Int)
  | regexp (source : String)
  | func (source : String)
  | runtime (fileDeps : FileDeps) (fn : Option Module → CodeValue)
  | arr (elems : List CodeValue)
  | obj (fields : List (String × CodeValue))

/-- The runtime template capability consulted by `toCode` for bigint. -/
structure Env where
  supportsBigIntLiteral : Bool
deriving Repr, DecidableEq

/-- Set-like insertion into a list (JS `Set.prototype.add`). -/
def addSet (acc : List String) (m : String) : List String :=
  if m ∈ acc then acc else acc ++ [m]

/-- Modelled from the spec: resolving a Runtime Value with a neutral
(moduleless) context invokes the compute function with no module and has no
module-specific side effects.  The source constructs `new
JavascriptParser("auto")` whose state initialization lives outside src/, so
this neutral behavior is taken from the spec's words. -/
def execRuntimeNeutralResult (fn : Option Module → CodeValue) : CodeValue :=
  fn none

/-- RuntimeValue.exec (src/lib/DefinePlugin.js lines 36-47): if
`fileDependencies === true` mark the consuming module uncacheable, otherwise
add every declared dependency path to the module's file-dependency set; then
invoke the compute function with a context exposing the current module. -/
def execRuntime (fileDeps : FileDeps) (fn : Option Module → CodeValue)
    (st : ParserState) : ParserState × CodeValue :=
  match st.module with
  | none => (st, execRuntimeNeutralResult fn)
  | some m =>
    let bi := m.buildInfo
    let bi2 :=
      match fileDeps with
      | .isTrue => { bi with cacheable := false }
      | .paths ps => { bi with fileDependencies := ps.foldl addSet bi.fileDependencies }
    let m2 := { m with buildInfo := bi2 }
    ({ module := some m2 }, fn (some m2))

/-- A hex digit character for JSON escaping. -/
def hexDigit (n : Nat) : Char :=
  if n < 10 then Char.ofNat (48 + n) else Char.ofNat (87 + n)

/-- JSON escape of a single character, as JSON.stringify produces. -/
def jsonEscapeChar (c : Char) : String :=
  if c = '"' then "\\\""
  else if c = '\\' then "\\\\"
  else if c = '\n' then "\\n"
  else if c = '\t' then "\\t"
  else if c = '\r' then "\\r"
  else if c = '\x08' then "\\b"
  else if c = '\x0c' then "\\f"
  else if c.toNat < 32 then
    "\\u00" ++ String.singleton (hexDigit (c.toNat / 16)) ++
      String.singleton (hexDigit (c.toNat % 16))
  else String.singleton c

/-- JSON.stringify on a string. -/
def jsonStringify (s : String) : String :=
  "\"" ++ String.join (s.data.map jsonEscapeChar) ++ "\""

/-- The ASI-safety switch at the end of `stringifyObj`
(src/lib/DefinePlugin.js lines 77-86). -/
def asiWrap (asiSafe : AsiSafe) (arr : Bool) (code : String) : String :=
  match asiSafe with
  | .unneeded => code
  | .safe => if arr then code else "(" ++ code ++ ")"
  | .notSafe => if arr then ";" ++ code else ";(" ++ code ++ ")"
  | .unknown => "Object(" ++ code ++ ")"

mutual

/-- toCode (src/lib/DefinePlugin.js lines 97-125): convert a CodeValue to a
source string, threading the parser state (mutated by RuntimeValue.exec).
The fuel argument only bounds recursion depth (the source can diverge on a
RuntimeValue whose compute function keeps returning runtime values); `none`
models divergence or a thrown error. -/
def toCode : Nat → Env → CodeValue → ParserState → AsiSafe →
    Option (String × ParserState)
  | 0, _, _, _, _ => none
  | fuel+1, env, code, st, asiSafe =>
    match code with
    | .nullV => some ("null", st)
    | .undef => some ("undefined", st)
    | .negZero => some ("-0", st)
    | .runtime deps fn =>
      let r := execRuntime deps fn st
      toCode fuel env r.2 r.1 asiSafe
    | .regexp source => some (source, st)
    | .func source => some ("(" ++ source ++ ")", st)
    | .arr xs => stringifyObj fuel env (.arr xs) st asiSafe
    | .obj fs => stringifyObj fuel env (.obj fs) st asiSafe
    | .bigint n =>
      some (if env.supportsBigIntLiteral then toString n ++ "n"
            else "BigInt(\"" ++ toString n ++ "\")", st)
    | .num n => some (toString n, st)
    | .boolV b => some (if b then "true" else "false", st)
    | .str s => some (s, st)

/-- stringifyObj (src/lib/DefinePlugin.js lines 57-87): serialize an array or
plain object; every element/value is serialized with asiSafe = null, and the
ASI-safety wrapping is applied only to the overall result. -/
def stringifyObj : Nat → Env → CodeValue → ParserState → AsiSafe →
    Option (String × ParserState)
  | 0, _, _, _, _ => none
  | fuel+1, env, obj, st, asiSafe =>
    match obj with
    | .arr xs =>
      match toCodeList fuel env xs st with
      | none => none
      | some (cs, st2) =>
        some (asiWrap asiSafe true ("[" ++ String.intercalate "," cs ++ "]"), st2)
    | .obj fs =>
      match toCodeFields fuel env fs st with
      | none => none
      | some (cs, st2) =>
        some (asiWrap asiSafe false ("\x7b" ++ String.intercalate "," cs ++ "\x7d"), st2)
    | _ => none

/-- The element map inside stringifyObj's array branch: each element is
serialized by `toCode` with asiSafe = null, left to right. -/
def toCodeList : Nat → Env → List CodeValue → ParserState →
    Option (List String × ParserState)
  | 0, _, _, _ => none
  | _+1, _, [], st => some ([], st)
  | fuel+1, env, x :: xs, st =>
    match toCode fuel env x st .unneeded with
    | none => none
    | some (s, st1) =>
      match toCodeList fuel env xs st1 with
      | none => none
      | some (cs, st2) => some (s :: cs, st2)

/-- The key map inside stringifyObj's object branch: each value is serialized
by `toCode` with asiSafe = null and paired with its JSON-quoted key. -/
def toCodeFields : Nat → Env → List (String × CodeValue) → ParserState →
    Option (List String × ParserState)
  | 0, _, _, _ => none
  | _+1, _, [], st => some ([], st)
  | fuel+1, env, (k, v) :: fs, st =>
    match toCode fuel env v st .unneeded with
    | none => none
    | some (s, st1) =>
      match toCodeFields fuel env fs st1 with
      | none => none
      | some (cs, st2) => some ((jsonStringify k ++ ":" ++ s) :: cs, st2)

end

/-- The persisted cache snapshot (`JSON.parse(rawCacheValue)`): key → stored
serialized text and key → modules that used the key, as association lists in
insertion order. -/
structure Snapshot where
  values : List (String × String)
  modulesUsingKey : List (String × List String)
deriving Repr, DecidableEq

/-- Association-list lookup, the model of JS string-keyed property access. -/
def lookupA {α : Type} : List (String × α) → String → Option α
  | [], _ => none
  | (k, v) :: rest, key => if k = key then some v else lookupA rest key

/-- Full key construction in `run`: `prefix ? prefix + "." + key : key`
(the empty string plays the role of the falsy initial prefix). -/
def mkFullKey (pfx key : String) : String :=
  if pfx = "" then key else pfx ++ "." ++ key

/-- Object.keys view of an array: index strings paired with elements, which is
what `run` recurses into when a definition value is an array. -/
def enumElems (xs : List CodeValue) : List (String × CodeValue) :=
  xs.enum.map fun p => (toString p.1, p.2)

/-- The text `run` recomputes for one leaf: `toCode` with a freshly
constructed parser (neutral context, no module) and asiSafe = null
(src/lib/DefinePlugin.js lines 213-218); `none` models a throw/divergence. -/
def toCodeLeafText (tcFuel : Nat) (env : Env) (v : CodeValue) : Option String :=
  match toCode tcFuel env v neutralParser .unneeded with
  | none => none
  | some (codeStr, _) => some codeStr

/-- The per-leaf invalidation decision of `run` (src/lib/DefinePlugin.js
lines 219-231): a falsy (empty) recomputed text is skipped; otherwise, when
the full key is in `cache.values` with a stored text of positive length
different from the recomputed text, the snapshot's recorded modules for the
key are added to the invalid set (a missing `modulesUsingKey` entry makes
the source throw on `.forEach`, modelled as `none`). -/
def invalidCheck (c : Snapshot) (fullKey codeStr : String)
    (acc : List String) : Option (List String) :=
  if codeStr = "" then some acc
  else
    match lookupA c.values fullKey with
    | some stored =>
      if 0 < stored.length ∧ codeStr ≠ stored then
        match lookupA c.modulesUsingKey fullKey with
        | some mods => some (mods.foldl addSet acc)
        | none => none
      else some acc
    | none => some acc

/-- The `run` reconciliation walk (src/lib/DefinePlugin.js lines 203-235),
processing the entries of one object level in order against the snapshot
`c` and accumulating the invalid module path set `acc`.  A value that is
null/array/object (JS `typeof === "object"`, RuntimeValue and RegExp
excluded) is recursed into — null makes `Object.keys` throw, modelled as
`none`; any other value is a leaf handled by `toCodeLeafText` and
`invalidCheck`.  `fuel` only bounds the walk's recursion; `tcFuel` is the
fuel handed to each `toCode` call. -/
def runFields : Nat → Nat → Env → Snapshot → List (String × CodeValue) →
    String → List String → Option (List String)
  | 0, _, _, _, _, _, _ => none
  | _+1, _, _, _, [], _, acc => some acc
  | fuel+1, tcFuel, env, c, (key, v) :: rest, pfx, acc =>
    let step : Option (List String) :=
      match v with
      | .nullV => none
      | .arr xs => runFields fuel tcFuel env c (enumElems xs) (mkFullKey pfx key) acc
      | .obj fs => runFields fuel tcFuel env c fs (mkFullKey pfx key) acc
      | _ =>
        match toCodeLeafText tcFuel env v with
        | none => none
        | some codeStr => invalidCheck c (mkFullKey pfx key) codeStr acc
    match step with
    | none => none
    | some acc2 => runFields fuel tcFuel env c rest pfx acc2

/-- The leaf keys visited by `runFields`, each paired with its recomputed
serialized text, in visit order (an auxiliary view used to state what the
invalidation set contains). -/
def leafEntries : Nat → Nat → Env → List (String × CodeValue) → String →
    Option (List (String × String))
  | 0, _, _, _, _ => none
  | _+1, _, _, [], _ => some []
  | fuel+1, tcFuel, env, (key, v) :: rest, pfx =>
    match v with
    | .nullV => none
    | .arr xs =>
      match leafEntries fuel tcFuel env (enumElems xs) (mkFullKey pfx key) with
      | none => none
      | some l1 =>
        match leafEntries fuel tcFuel env rest pfx with
        | none => none
        | some l2 => some (l1 ++ l2)
    | .obj fs =>
      match leafEntries fuel tcFuel env fs (mkFullKey pfx key) with
      | none => none
      | some l1 =>
        match leafEntries fuel tcFuel env rest pfx with
        | none => none
        | some l2 => some (l1 ++ l2)
    | _ =>
      match toCodeLeafText tcFuel env v with
      | none => none
      | some codeStr =>
        match leafEntries fuel tcFuel env rest pfx with
        | none => none
        | some l2 => some ((mkFullKey pfx key, codeStr) :: l2)

/-- The per-leaf invalidation step of `run`, folded over a list of
(full key, recomputed text) pairs. -/
def foldInvalid (c : Snapshot) : List (String × String) → List String →
    Option (List String)
  | [], acc => some acc
  | (fullKey, codeStr) :: rest, acc =>
    match invalidCheck c fullKey codeStr acc with
    | none => none
    | some acc2 => foldInvalid c rest acc2

/-- The module-level mutable state of the plugin: the run state (`state`),
the codegen / persist flags and the resolution-gate bookkeeping. -/
structure Globals where
  values : List (String × String)
  modulesUsingKey : List (String × List String)
  didCodeGeneration : Bool
  didAfterCompileHookRun : Bool
  invalidModulePaths : List String
  cacheEmpty : Bool
deriving Repr, DecidableEq

/-- Outcome of the reconcile promise: resolved with global state, rejected
(load error), or never settled (an exception inside the callback). -/
inductive ReconcileOutcome where
  | resolved (g : Globals)
  | rejected
  | pending
deriving Repr, DecidableEq

/-- The `definePluginCache.get` callback (src/lib/DefinePlugin.js lines
184-243): a read error rejects the reconcile promise; an absent/empty cache
value resolves it with `cacheEmpty = true`; otherwise the parsed snapshot is
reconciled by `run` over the definitions and the promise resolves with the
computed invalid module paths.  JSON parsing of the raw blob is external and
abstracted: `rawCacheValue = none` stands for a missing or empty blob. -/
def cacheGetCallback (fuel tcFuel : Nat) (env : Env)
    (defs : List (String × CodeValue)) (g : Globals) (err : Bool)
    (rawCacheValue : Option Snapshot) : ReconcileOutcome :=
  if err then .rejected
  else
    match rawCacheValue with
    | none => .resolved { g with cacheEmpty := true }
    | some cache =>
      match runFields fuel tcFuel env cache defs "" g.invalidModulePaths with
      | none => .pending
      | some inv => .resolved { g with invalidModulePaths := inv }

/-- A resolution request as the gate sees it: the issuer (from
`request.context.issuer`), the requested specifier, and the
`_forceRealResolve` flag the gate may set. -/
structure Request where
  issuer : String
  request : String
  forceRealResolve : Bool
deriving Repr, DecidableEq

/-- The body of the wrapped ResolverCachePlugin tap after the reconcile
promise resolved (src/lib/DefinePlugin.js lines 263-279): when the cache was
empty, delegate immediately; otherwise resolve the module path (the external
`path.resolve(path.dirname(issuer), request)` is abstracted as `resolveFn`),
and on membership in the invalid set mark the request to bypass the resolver
cache and remove the path (one-shot); in every branch the original tap
function is invoked with the (possibly marked) request. -/
def tapFnLoaded {α : Type} (originalTapFn : Request → α)
    (resolveFn : String → String → String) (g : Globals) (req : Request) :
    Globals × α :=
  if g.cacheEmpty then (g, originalTapFn req)
  else
    let modulePath := resolveFn req.issuer req.request
    if modulePath ∈ g.invalidModulePaths then
      ({ g with invalidModulePaths := g.invalidModulePaths.erase modulePath },
        originalTapFn { req with forceRealResolve := true })
    else (g, originalTapFn req)

/-- The full wrapped tap (src/lib/DefinePlugin.js lines 260-285): wait on the
reconcile promise; on resolution run the gate body, on rejection log and
invoke the original tap unchanged; a promise that never settles never invokes
the original tap (`none`). -/
def tapFn {α : Type} (originalTapFn : Request → α)
    (resolveFn : String → String → String) (out : ReconcileOutcome)
    (req : Request) : ReconcileOutcome × Option α :=
  match out with
  | .resolved g =>
    let r := tapFnLoaded originalTapFn resolveFn g req
    (.resolved r.1, some r.2)
  | .rejected => (.rejected, some (originalTapFn req))
  | .pending => (.pending, none)

/-- The afterCompile hook body (src/lib/DefinePlugin.js lines 294-315):
a no-op when the persist already ran or when no code generation was recorded;
otherwise set the ran flag and store the snapshot (the returned Bool reports
whether `definePluginCache.store` was invoked). -/
def afterCompileHook (g : Globals) : Globals × Bool :=
  if g.didAfterCompileHookRun then (g, false)
  else if !g.didCodeGeneration then (g, false)
  else ({ g with didAfterCompileHookRun := true }, true)

/-- Iterate `n` completion signals of the same build through the afterCompile
hook, counting how many times the snapshot store was invoked. -/
def afterCompileRuns : Globals → Nat → Globals × Nat
  | g, 0 => (g, 0)
  | g, n+1 =>
    let r := afterCompileHook g
    let r2 := afterCompileRuns r.1 n
    (r2.1, (if r.2 then 1 else 0) + r2.2)

/-- JS object property assignment on an association list: replace in place if
the key exists, else append. -/
def setAssoc {α : Type} (l : List (String × α)) (k : String) (v : α) :
    List (String × α) :=
  if (lookupA l k).isSome then
    l.map fun kv => if kv.1 = k then (k, v) else kv
  else l ++ [(k, v)]

/-- State visible to a registered hook behavior: the global plugin state, the
two per-key re-entrancy flags of `applyDefine` (closure variables `recurse`
and `recurseTypeof`), and the parser state. -/
structure HookState where
  globals : Globals
  recurse : Bool
  recurseTypeof : Bool
  pstate : ParserState
deriving Repr, DecidableEq

/-- hookCallback (src/lib/DefinePlugin.js lines 332-345): run the wrapped
behavior; when it produces no result, report nothing; otherwise mark that
code generation happened and record the key's serialized text and the
consuming module's request in the run state. -/
def hookCallback {R : Type} (key : String) (moduleRequest : String)
    (cb : HookState → Option (String × R) × HookState) (hs : HookState) :
    Option R × HookState :=
  let r := cb hs
  match r.1 with
  | none => (none, r.2)
  | some (strCode, result) =>
    let g := r.2.globals
    let g2 := { g with
      didCodeGeneration := true,
      values := setAssoc g.values key strCode,
      modulesUsingKey := setAssoc g.modulesUsingKey key
        ((lookupA g.modulesUsingKey key).getD [] ++ [moduleRequest]) }
    (some result, { r.2 with globals := g2 })

/-- The evaluateIdentifier behavior of `applyDefine` (src/lib/DefinePlugin.js
lines 398-417): bail out with no result while the per-key `recurse` flag is
set; otherwise set it, serialize the definition value, hand the text to the
parser's evaluator (`evalExpr`, an external facility that may re-enter any
hook and mutate the state), clear the flag and return text and result.  A
`toCode` failure models the source throwing/diverging there: no result is
produced and the flag stays set. -/
def identCb {R : Type} (fuel : Nat) (env : Env) (code : CodeValue)
    (evalExpr : String → HookState → R × HookState) (hs : HookState) :
    Option (String × R) × HookState :=
  if hs.recurse then (none, hs)
  else
    let hs1 := { hs with recurse := true }
    match toCode fuel env code hs1.pstate .unneeded with
    | none => (none, hs1)
    | some (strCode, pst) =>
      let hs2 := { hs1 with pstate := pst }
      let r := evalExpr strCode hs2
      (some (strCode, r.1), { r.2 with recurse := false })

/-- The evaluateTypeof behavior of `applyDefine` (src/lib/DefinePlugin.js
lines 443-465): the same shape as the identifier evaluation but guarded by
the independent `recurseTypeof` flag, and evaluating `typeof (text)` unless
the key was declared typeof-only. -/
def typeofEvalCb {R : Type} (fuel : Nat) (env : Env) (isTypeof : Bool)
    (code : CodeValue) (evalExpr : String → HookState → R × HookState)
    (hs : HookState) : Option (String × R) × HookState :=
  if hs.recurseTypeof then (none, hs)
  else
    let hs1 := { hs with recurseTypeof := true }
    match toCode fuel env code hs1.pstate .unneeded with
    | none => (none, hs1)
    | some (strCode, pst) =>
      let hs2 := { hs1 with pstate := pst }
      let typeofCode := if isTypeof then strCode else "typeof (" ++ strCode ++ ")"
      let r := evalExpr typeofCode hs2
      (some (strCode, r.1), { r.2 with recurseTypeof := false })

theorem mem_addSet (acc : List String) (x m : String) :
    m ∈ addSet acc x ↔ m ∈ acc ∨ m = x := by
  unfold addSet
  by_cases h : x ∈ acc
  · simp only [h, if_true]
    constructor
    · exact Or.inl
    · rintro (hm | rfl)
      · exact hm
      · exact h
  · simp [h]

theorem nodup_addSet (acc : List String) (x : String) (h : acc.Nodup) :
    (addSet acc x).Nodup := by
  unfold addSet
  by_cases hx : x ∈ acc
  · simpa [hx]
  · simp [hx, List.nodup_append, h]

theorem mem_foldl_addSet (ps : List String) :
    ∀ (acc : List String) (m : String),
      m ∈ ps.foldl addSet acc ↔ m ∈ acc ∨ m ∈ ps := by
  induction ps with
  | nil => intro acc m; simp
  | cons p ps ih =>
    intro acc m
    simp only [List.foldl_cons, ih, mem_addSet, List.mem_cons]
    tauto

theorem nodup_foldl_addSet (ps : List String) :
    ∀ acc : List String, acc.Nodup → (ps.foldl addSet acc).Nodup := by
  induction ps with
  | nil => intro acc h; simpa
  | cons p ps ih => intro acc h; exact ih _ (nodup_addSet _ _ h)

theorem string_length_pos_iff (s : String) : 0 < s.length ↔ s ≠ "" := by
  cases s with
  | mk data =>
    have hempty : ("" : String) = ⟨[]⟩ := rfl
    constructor
    · intro h heq
      rw [heq] at h
      simp [String.length] at h
    · intro h
      rcases data with _ | ⟨c, cs⟩
      · exact absurd (by rw [hempty]) h
      · simp [String.length]

theorem foldInvalid_append (c : Snapshot) (l1 : List (String × String)) :
    ∀ (l2 : List (String × String)) (acc : List String),
      foldInvalid c (l1 ++ l2) acc
        = (foldInvalid c l1 acc).bind (fun a => foldInvalid c l2 a) := by
  induction l1 with
  | nil => intro l2 acc; simp [foldInvalid]
  | cons e l1 ih =>
    intro l2 acc
    obtain ⟨fullKey, codeStr⟩ := e
    simp only [List.cons_append, foldInvalid]
    cases h : invalidCheck c fullKey codeStr acc with
    | none => simp
    | some acc2 => simp [ih]

theorem leaf_step_core (fuel tcFuel : Nat) (env : Env) (c : Snapshot)
    (key : String) (rest : List (String × CodeValue)) (pfx : String)
    (acc : List String) (t? : Option String)
    (ih : ∀ (entries : List (String × CodeValue)) (pfx2 : String)
      (acc2 : List String),
      runFields fuel tcFuel env c entries pfx2 acc2
        = (leafEntries fuel tcFuel env entries pfx2).bind
            (fun ls => foldInvalid c ls acc2)) :
    (match
        (match t? with
         | none => none
         | some codeStr => invalidCheck c (mkFullKey pfx key) codeStr acc) with
      | none => none
      | some acc2 => runFields fuel tcFuel env c rest pfx acc2)
      = (match t? with
         | none => none
         | some codeStr =>
           match leafEntries fuel tcFuel env rest pfx with
           | none => none
           | some l2 => some ((mkFullKey pfx key, codeStr) :: l2)).bind
          (fun ls => foldInvalid c ls acc) := by
  cases t? with
  | none => simp
  | some codeStr =>
    cases h2 : leafEntries fuel tcFuel env rest pfx with
    | none =>
      cases hI : invalidCheck c (mkFullKey pfx key) codeStr acc with
      | none => simp [hI]
      | some acc2 => simp [hI, ih, h2]
    | some l2 =>
      cases hI : invalidCheck c (mkFullKey pfx key) codeStr acc with
      | none => simp [foldInvalid, hI]
      | some acc2 => simp [ih, h2, foldInvalid, hI]

theorem branch_obj_core (fuel tcFuel : Nat) (env : Env) (c : Snapshot)
    (children rest : List (String × CodeValue)) (newpfx pfx : String)
    (acc : List String)
    (ih : ∀ (entries : List (String × CodeValue)) (pfx2 : String)
      (acc2 : List String),
      runFields fuel tcFuel env c entries pfx2 acc2
        = (leafEntries fuel tcFuel env entries pfx2).bind
            (fun ls => foldInvalid c ls acc2)) :
    (match runFields fuel tcFuel env c children newpfx acc with
      | none => none
      | some acc2 => runFields fuel tcFuel env c rest pfx acc2)
      = (match leafEntries fuel tcFuel env children newpfx with
         | none => none
         | some l1 =>
           match leafEntries fuel tcFuel env rest pfx with
           | none => none
           | some l2 => some (l1 ++ l2)).bind
          (fun ls => foldInvalid c ls acc) := by
  rw [ih children newpfx acc]
  cases h1 : leafEntries fuel tcFuel env children newpfx with
  | none => simp
  | some l1 =>
    cases hf1 : foldInvalid c l1 acc with
    | none =>
      cases h2 : leafEntries fuel tcFuel env rest pfx with
      | none => simp [hf1]
      | some l2 => simp [hf1, foldInvalid_append]
    | some acc2 =>
      cases h2 : leafEntries fuel tcFuel env rest pfx with
      | none => simp [hf1, ih, h2]
      | some l2 => simp [hf1, ih, h2, foldInvalid_append]

theorem runFields_eq (env : Env) (c : Snapshot) :
    ∀ (fuel tcFuel : Nat) (entries : List (String × CodeValue))
      (pfx : String) (acc : List String),
      runFields fuel tcFuel env c entries pfx acc
        = (leafEntries fuel tcFuel env entries pfx).bind
            (fun ls => foldInvalid c ls acc) := by
  intro fuel
  induction fuel with
  | zero => intro tcFuel entries pfx acc; simp [runFields, leafEntries]
  | succ fuel ih =>
    intro tcFuel entries pfx acc
    cases entries with
    | nil => simp [runFields, leafEntries, foldInvalid]
    | cons e rest =>
      obtain ⟨key, v⟩ := e
      cases v with
      | nullV => simp [runFields, leafEntries]
      | arr xs =>
        simp only [runFields, leafEntries]
        exact branch_obj_core fuel tcFuel env c _ rest _ pfx acc (ih tcFuel)
      | obj fs =>
        simp only [runFields, leafEntries]
        exact branch_obj_core fuel tcFuel env c _ rest _ pfx acc (ih tcFuel)
      | undef =>
        simp only [runFields, leafEntries]
        exact leaf_step_core fuel tcFuel env c key rest pfx acc _ (ih tcFuel)
      | negZero =>
        simp only [runFields, leafEntries]
        exact leaf_step_core fuel tcFuel env c key rest pfx acc _ (ih tcFuel)
      | num n =>
        simp only [runFields, leafEntries]
        exact leaf_step_core fuel tcFuel env c key rest pfx acc _ (ih tcFuel)
      | boolV b =>
        simp only [runFields, leafEntries]
        exact leaf_step_core fuel tcFuel env c key rest pfx acc _ (ih tcFuel)
      | str s =>
        simp only [runFields, leafEntries]
        exact leaf_step_core fuel tcFuel env c key rest pfx acc _ (ih tcFuel)
      | bigint n =>
        simp only [runFields, leafEntries]
        exact leaf_step_core fuel tcFuel env c key rest pfx acc _ (ih tcFuel)
      | regexp s =>
        simp only [runFields, leafEntries]
        exact leaf_step_core fuel tcFuel env c key rest pfx acc _ (ih tcFuel)
      | func s =>
        simp only [runFields, leafEntries]
        exact leaf_step_core fuel tcFuel env c key rest pfx acc _ (ih tcFuel)
      | runtime deps fn =>
        simp only [runFields, leafEntries]
        exact leaf_step_core fuel tcFuel env c key rest pfx acc _ (ih tcFuel)

theorem invalidCheck_some_mem (c : Snapshot) (k t : String)
    (acc acc2 : List String) (h : invalidCheck c k t acc = some acc2)
    (m : String) :
    m ∈ acc2 ↔ m ∈ acc ∨ (t ≠ "" ∧ ∃ s mods, lookupA c.values k = some s ∧
      s ≠ "" ∧ t ≠ s ∧ lookupA c.modulesUsingKey k = some mods ∧ m ∈ mods) := by
  unfold invalidCheck at h
  by_cases ht : t = ""
  · rw [if_pos ht] at h
    obtain rfl : acc = acc2 := Option.some.inj h
    simp [ht]
  · rw [if_neg ht] at h
    cases hv : lookupA c.values k with
    | none =>
      rw [hv] at h
      replace h : some acc = some acc2 := h
      obtain rfl : acc = acc2 := Option.some.inj h
      constructor
      · exact Or.inl
      · rintro (hm | ⟨-, s, mods, hs, -⟩)
        · exact hm
        · cases hs
    | some stored =>
      rw [hv] at h
      replace h : (if 0 < stored.length ∧ t ≠ stored then
          match lookupA c.modulesUsingKey k with
          | some mods => some (List.foldl addSet acc mods)
          | none => none
        else some acc) = some acc2 := h
      by_cases hcond : 0 < stored.length ∧ t ≠ stored
      · rw [if_pos hcond] at h
        cases hmods : lookupA c.modulesUsingKey k with
        | none =>
          rw [hmods] at h
          replace h : (none : Option (List String)) = some acc2 := h
          cases h
        | some mods =>
          rw [hmods] at h
          replace h : some (mods.foldl addSet acc) = some acc2 := h
          obtain rfl : mods.foldl addSet acc = acc2 := Option.some.inj h
          rw [mem_foldl_addSet]
          constructor
          · rintro (hm | hm)
            · exact Or.inl hm
            · exact Or.inr ⟨ht, stored, mods, rfl,
                (string_length_pos_iff stored).mp hcond.1, hcond.2, rfl, hm⟩
          · rintro (hm | ⟨-, s, mods2, hs, -, hts, hm2, hmem⟩)
            · exact Or.inl hm
            · obtain rfl : stored = s := Option.some.inj hs
              obtain rfl : mods = mods2 := Option.some.inj hm2
              exact Or.inr hmem
      · rw [if_neg hcond] at h
        obtain rfl : acc = acc2 := Option.some.inj h
        constructor
        · exact Or.inl
        · rintro (hm | ⟨ht2, s, mods, hs, hsne, hts, -⟩)
          · exact hm
          · obtain rfl : stored = s := Option.some.inj hs
            exact absurd ⟨(string_length_pos_iff stored).mpr hsne, hts⟩ hcond

theorem mem_foldInvalid (c : Snapshot) :
    ∀ (ls : List (String × String)) (acc inv : List String),
      foldInvalid c ls acc = some inv → ∀ m : String,
      (m ∈ inv ↔ m ∈ acc ∨ ∃ k t, (k, t) ∈ ls ∧ t ≠ "" ∧
        ∃ s mods, lookupA c.values k = some s ∧ s ≠ "" ∧ t ≠ s ∧
          lookupA c.modulesUsingKey k = some mods ∧ m ∈ mods) := by
  intro ls
  induction ls with
  | nil =>
    intro acc inv h m
    obtain rfl : acc = inv := Option.some.inj h
    simp
  | cons e rest ih =>
    intro acc inv h m
    obtain ⟨k0, t0⟩ := e
    simp only [foldInvalid] at h
    cases hI : invalidCheck c k0 t0 acc with
    | none => rw [hI] at h; cases h
    | some acc1 =>
      rw [hI] at h
      have hiv := invalidCheck_some_mem c k0 t0 acc acc1 hI m
      have hih := ih acc1 inv h m
      rw [hih, hiv]
      constructor
      · rintro ((hm | ⟨ht0, s, mods, hrest⟩) | ⟨k, t, hkt, hrest⟩)
        · exact Or.inl hm
        · exact Or.inr ⟨k0, t0, List.mem_cons_self _ _, ht0, s, mods, hrest⟩
        · exact Or.inr ⟨k, t, List.mem_cons_of_mem _ hkt, hrest⟩
      · rintro (hm | ⟨k, t, hkt, hrest⟩)
        · exact Or.inl (Or.inl hm)
        · rcases List.mem_cons.mp hkt with heq | hmem
          · obtain ⟨rfl, rfl⟩ := Prod.mk.injEq .. ▸ heq
            exact Or.inl (Or.inr hrest)
          · exact Or.inr ⟨k, t, hmem, hrest⟩

theorem execRuntime_neutral (deps : FileDeps) (fn : Option Module → CodeValue) :
    execRuntime deps fn neutralParser = (neutralParser, fn none) := rfl

theorem neutral_all : ∀ (fuel : Nat) (env : Env),
    (∀ (v : CodeValue) (asi : AsiSafe) (out : String × ParserState),
      toCode fuel env v neutralParser asi = some out → out.2 = neutralParser) ∧
    (∀ (v : CodeValue) (asi : AsiSafe) (out : String × ParserState),
      stringifyObj fuel env v neutralParser asi = some out → out.2 = neutralParser) ∧
    (∀ (xs : List CodeValue) (out : List String × ParserState),
      toCodeList fuel env xs neutralParser = some out → out.2 = neutralParser) ∧
    (∀ (fs : List (String × CodeValue)) (out : List String × ParserState),
      toCodeFields fuel env fs neutralParser = some out → out.2 = neutralParser) := by
  intro fuel
  induction fuel with
  | zero =>
    intro env
    refine ⟨?_, ?_, ?_, ?_⟩
    · intro v asi out h; cases h
    · intro v asi out h; cases h
    · intro xs out h; cases h
    · intro fs out h; cases h
  | succ fuel ih =>
    intro env
    obtain ⟨ih1, ih2, ih3, ih4⟩ := ih env
    refine ⟨?_, ?_, ?_, ?_⟩
    · intro v asi out h
      cases v with
      | nullV => obtain rfl := Option.some.inj h; rfl
      | undef => obtain rfl := Option.some.inj h; rfl
      | negZero => obtain rfl := Option.some.inj h; rfl
      | num n => obtain rfl := Option.some.inj h; rfl
      | boolV b => obtain rfl := Option.some.inj h; rfl
      | str s => obtain rfl := Option.some.inj h; rfl
      | bigint n => obtain rfl := Option.some.inj h; rfl
      | regexp s => obtain rfl := Option.some.inj h; rfl
      | func s => obtain rfl := Option.some.inj h; rfl
      | runtime deps fn =>
        replace h : toCode fuel env (fn none) neutralParser asi = some out := h
        exact ih1 _ _ _ h
      | arr xs => exact ih2 _ _ _ h
      | obj fs => exact ih2 _ _ _ h
    · intro v asi out h
      cases v with
      | arr xs =>
        replace h : (match toCodeList fuel env xs neutralParser with
          | none => none
          | some (cs, st2) =>
            some (asiWrap asi true ("[" ++ String.intercalate "," cs ++ "]"), st2))
          = some out := h
        cases hl : toCodeList fuel env xs neutralParser with
        | none => rw [hl] at h; cases h
        | some p =>
          obtain ⟨cs, st2⟩ := p
          rw [hl] at h
          obtain rfl := Option.some.inj h
          exact ih3 _ _ hl
      | obj fs =>
        replace h : (match toCodeFields fuel env fs neutralParser with
          | none => none
          | some (cs, st2) =>
            some (asiWrap asi false ("\x7b" ++ String.intercalate "," cs ++ "\x7d"), st2))
          = some out := h
        cases hl : toCodeFields fuel env fs neutralParser with
        | none => rw [hl] at h; cases h
        | some p =>
          obtain ⟨cs, st2⟩ := p
          rw [hl] at h
          obtain rfl := Option.some.inj h
          exact ih4 _ _ hl
      | nullV => cases h
      | undef => cases h
      | negZero => cases h
      | num n => cases h
      | boolV b => cases h
      | str s => cases h
      | bigint n => cases h
      | regexp s => cases h
      | func s => cases h
      | runtime deps fn => cases h
    · intro xs out h
      cases xs with
      | nil => obtain rfl := Option.some.inj h; rfl
      | cons x xs =>
        replace h : (match toCode fuel env x neutralParser .unneeded with
          | none => none
          | some (s, st1) =>
            match toCodeList fuel env xs st1 with
            | none => none
            | some (cs, st2) => some (s :: cs, st2)) = some out := h
        cases hx : toCode fuel env x neutralParser .unneeded with
        | none => rw [hx] at h; cases h
        | some p =>
          obtain ⟨s, st1⟩ := p
          rw [hx] at h
          have hst1 : st1 = neutralParser := ih1 _ _ _ hx
          subst hst1
          replace h : (match toCodeList fuel env xs neutralParser with
            | none => none
            | some (cs, st2) => some (s :: cs, st2)) = some out := h
          cases hrest : toCodeList fuel env xs neutralParser with
          | none => rw [hrest] at h; cases h
          | some q =>
            obtain ⟨cs, st2⟩ := q
            rw [hrest] at h
            obtain rfl := Option.some.inj h
            exact ih3 xs (cs, st2) hrest
    · intro fs out h
      cases fs with
      | nil => obtain rfl := Option.some.inj h; rfl
      | cons kv fs =>
        obtain ⟨k, v⟩ := kv
        replace h : (match toCode fuel env v neutralParser .unneeded with
          | none => none
          | some (s, st1) =>
            match toCodeFields fuel env fs st1 with
            | none => none
            | some (cs, st2) => some ((jsonStringify k ++ ":" ++ s) :: cs, st2))
          = some out := h
        cases hx : toCode fuel env v neutralParser .unneeded with
        | none => rw [hx] at h; cases h
        | some p =>
          obtain ⟨s, st1⟩ := p
          rw [hx] at h
          have hst1 : st1 = neutralParser := ih1 _ _ _ hx
          subst hst1
          replace h : (match toCodeFields fuel env fs neutralParser with
            | none => none
            | some (cs, st2) => some ((jsonStringify k ++ ":" ++ s) :: cs, st2))
            = some out := h
          cases hrest : toCodeFields fuel env fs neutralParser with
          | none => rw [hrest] at h; cases h
          | some q =>
            obtain ⟨cs, st2⟩ := q
            rw [hrest] at h
            obtain rfl := Option.some.inj h
            exact ih4 fs (cs, st2) hrest

theorem afterCompileHook_store_iff (g : Globals) :
    (afterCompileHook g).2 = true ↔
      (g.didAfterCompileHookRun = false ∧ g.didCodeGeneration = true) := by
  unfold afterCompileHook
  cases hA : g.didAfterCompileHookRun <;> cases hC : g.didCodeGeneration <;> simp

theorem afterCompileHook_noop (g : Globals)
    (h : (afterCompileHook g).2 = false) : (afterCompileHook g).1 = g := by
  unfold afterCompileHook at *
  cases hA : g.didAfterCompileHookRun <;> cases hC : g.didCodeGeneration <;>
    simp_all

theorem afterCompileHook_sets_flag (g : Globals)
    (h : (afterCompileHook g).2 = true) :
    (afterCompileHook g).1.didAfterCompileHookRun = true := by
  unfold afterCompileHook at *
  cases hA : g.didAfterCompileHookRun <;> cases hC : g.didCodeGeneration <;>
    simp_all

theorem afterCompileRuns_stopped (n : Nat) :
    ∀ g : Globals, g.didAfterCompileHookRun = true →
      afterCompileRuns g n = (g, 0) := by
  induction n with
  | zero => intro g h; rfl
  | succ n ih =>
    intro g h
    have hstep : afterCompileHook g = (g, false) := by
      unfold afterCompileHook; simp [h]
    simp [afterCompileRuns, hstep, ih g h]

theorem afterCompileRuns_le_one (n : Nat) :
    ∀ g : Globals, (afterCompileRuns g n).2 ≤ 1 := by
  induction n with
  | zero => intro g; simp [afterCompileRuns]
  | succ n ih =>
    intro g
    unfold afterCompileRuns
    cases hb : (afterCompileHook g).2 with
    | false => simpa [hb] using ih (afterCompileHook g).1
    | true =>
      have hflag := afterCompileHook_sets_flag g hb
      simp [hb, afterCompileRuns_stopped n _ hflag]

theorem afterCompileRuns_no_codegen (n : Nat) :
    ∀ g : Globals, g.didCodeGeneration = false →
      (afterCompileRuns g n).2 = 0 := by
  induction n with
  | zero => intro g h; rfl
  | succ n ih =>
    intro g h
    have hstep : afterCompileHook g = (g, false) := by
      unfold afterCompileHook
      cases hA : g.didAfterCompileHookRun <;> simp [h]
    simp [afterCompileRuns, hstep, ih g h]

/-- C1 counterexample: the invalidation set is not "exactly the usedBy sets
of the snapshot keys whose recomputed text differs".  With the definition
`A ↦ ""` the recomputed text of snapshot key `A` is the empty string, which
differs from the stored text `x`, and snapshot key `B` is absent from the
definition tree while its stored text can never match a recomputation;
yet `run` produces an empty invalidation set, so neither `m1` (recorded for
`A`) nor `m2` (recorded for `B`) is invalidated. -/
theorem run_invalidation_not_exact_on_empty_text :
    runFields 2 1 ⟨true⟩
        ⟨[("A", "x"), ("B", "y")], [("A", ["m1"]), ("B", ["m2"])]⟩
        [("A", CodeValue.str "")] "" [] = some [] ∧
    toCodeLeafText 1 ⟨true⟩ (CodeValue.str "") = some "" ∧
    ("" : String) ≠ "x" ∧
    lookupA ([("A", "x"), ("B", "y")] : List (String × String)) "A" = some "x" ∧
    lookupA ([("A", ["m1"]), ("B", ["m2"])] : List (String × List String)) "A"
      = some ["m1"] ∧
    "m1" ∉ ([] : List String) ∧ "m2" ∉ ([] : List String) := by
  refine ⟨by decide, by decide, by decide, by decide, by decide, by decide, by decide⟩

/-- C1 (amended): whenever the reconciliation walk completes, a module is in
the invalidation set exactly when some leaf key of the current definition
tree has a nonempty recomputed serialized text, appears in the snapshot with
a nonempty stored text different from the recomputed one, and has the module
recorded in the snapshot's usedBy set for that key; modules recorded only
under other keys (unchanged, empty-texted, or absent from the definition
tree) are not added. -/
theorem run_invalidation_characterization
    (fuel tcFuel : Nat) (env : Env) (c : Snapshot)
    (defs : List (String × CodeValue)) (inv : List String)
    (h : runFields fuel tcFuel env c defs "" [] = some inv) :
    ∃ ls, leafEntries fuel tcFuel env defs "" = some ls ∧
      ∀ m : String, (m ∈ inv ↔ ∃ k t, (k, t) ∈ ls ∧ t ≠ "" ∧
        ∃ s mods, lookupA c.values k = some s ∧ s ≠ "" ∧ t ≠ s ∧
          lookupA c.modulesUsingKey k = some mods ∧ m ∈ mods) := by
  rw [runFields_eq] at h
  cases hls : leafEntries fuel tcFuel env defs "" with
  | none => rw [hls] at h; cases h
  | some ls =>
    rw [hls] at h
    replace h : foldInvalid c ls [] = some inv := h
    refine ⟨ls, rfl, fun m => ?_⟩
    have hch := mem_foldInvalid c ls [] inv h m
    simpa using hch

/-- Witness for the amended C1 theorem at a concrete input: definition
`A ↦ "y"`, snapshot stores `A ↦ "x"` used by module `m1`, and `run`
computes the invalidation set `[m1]`. -/
theorem run_invalidation_characterization_witness :
    ∃ ls, leafEntries 2 1 ⟨true⟩ [("A", CodeValue.str "y")] "" = some ls ∧
      ∀ m : String, (m ∈ (["m1"] : List String) ↔ ∃ k t, (k, t) ∈ ls ∧ t ≠ "" ∧
        ∃ s mods,
          lookupA (Snapshot.mk [("A", "x")] [("A", ["m1"])]).values k = some s ∧
          s ≠ "" ∧ t ≠ s ∧
          lookupA (Snapshot.mk [("A", "x")] [("A", ["m1"])]).modulesUsingKey k
            = some mods ∧ m ∈ mods) :=
  run_invalidation_characterization 2 1 ⟨true⟩ ⟨[("A", "x")], [("A", ["m1"])]⟩
    [("A", CodeValue.str "y")] ["m1"] (by decide)

/-- C2: if every leaf key's recomputed serialized text agrees with the
snapshot's stored text for that key (which is what an unchanged definition
tree with unchanged Runtime Value outputs means, since change detection is
textual), the invalidation set computed at build start is empty. -/
theorem unchanged_texts_give_empty_invalidation
    (fuel tcFuel : Nat) (env : Env) (c : Snapshot)
    (defs : List (String × CodeValue)) (inv : List String)
    (ls : List (String × String))
    (hrun : runFields fuel tcFuel env c defs "" [] = some inv)
    (hls : leafEntries fuel tcFuel env defs "" = some ls)
    (hsame : ∀ k t s, (k, t) ∈ ls → lookupA c.values k = some s → s = t) :
    inv = [] := by
  rw [runFields_eq, hls] at hrun
  replace hrun : foldInvalid c ls [] = some inv := hrun
  have hch := mem_foldInvalid c ls [] inv hrun
  apply List.eq_nil_iff_forall_not_mem.mpr
  intro m hm
  rcases (hch m).mp hm with hm0 | ⟨k, t, hkt, ht, s, mods, hs, hsne, hts, hrest⟩
  · exact absurd hm0 (List.not_mem_nil m)
  · exact hts ((hsame k t s hkt hs).symm)

/-- Witness for C2 at a concrete input: definition `A ↦ "x"` and a snapshot
storing the same text `x` for `A`; the second build's invalidation set is
empty. -/
theorem unchanged_texts_give_empty_invalidation_witness :
    runFields 2 1 ⟨true⟩ ⟨[("A", "x")], [("A", ["m"])]⟩
        [("A", CodeValue.str "x")] "" [] = some [] ∧ ([] : List String) = [] :=
  ⟨by decide,
    unchanged_texts_give_empty_invalidation 2 1 ⟨true⟩
      ⟨[("A", "x")], [("A", ["m"])]⟩ [("A", CodeValue.str "x")] [] [("A", "x")]
      (by decide) (by decide)
      (by
        intro k t s hkt hs
        simp only [List.mem_singleton] at hkt
        have hk : k = "A" := congrArg Prod.fst hkt
        have ht : t = "x" := congrArg Prod.snd hkt
        subst hk
        subst ht
        have hs3 : lookupA [("A", "x")] "A" = some s := hs
        have hx : lookupA [("A", "x")] "A" = some "x" := by decide
        rw [hx] at hs3
        exact (Option.some.inj hs3).symm)⟩

/-- C10: every module in the invalidation set originates from a leaf key
whose recomputed text is nonempty and whose stored snapshot text is nonempty
and different; hence a key whose recomputed text is the empty string, or
whose stored text is the empty string, contributes no modules even when the
two texts differ — such keys are silently skipped. -/
theorem empty_text_keys_contribute_nothing
    (fuel tcFuel : Nat) (env : Env) (c : Snapshot)
    (defs : List (String × CodeValue)) (inv : List String)
    (ls : List (String × String)) (m : String)
    (hrun : runFields fuel tcFuel env c defs "" [] = some inv)
    (hls : leafEntries fuel tcFuel env defs "" = some ls)
    (hm : m ∈ inv) :
    ∃ k t, (k, t) ∈ ls ∧ t ≠ "" ∧ ∃ s mods,
      lookupA c.values k = some s ∧ s ≠ "" ∧ t ≠ s ∧
      lookupA c.modulesUsingKey k = some mods ∧ m ∈ mods := by
  rw [runFields_eq, hls] at hrun
  replace hrun : foldInvalid c ls [] = some inv := hrun
  have hch := (mem_foldInvalid c ls [] inv hrun m).mp hm
  simpa using hch

/-- Witness for C10 at a concrete input: definitions `FLAG ↦ "1"` and
`E ↦ ""`; the snapshot stores `FLAG ↦ "2"` (used by `mA`) and `E ↦ "old"`
(used by `mB`).  `run` invalidates exactly `mA`, and the theorem locates its
origin key with both texts nonempty and different. -/
theorem empty_text_keys_contribute_nothing_witness :
    ∃ k t, (k, t) ∈ ([("FLAG", "1"), ("E", "")] : List (String × String)) ∧
      t ≠ "" ∧ ∃ s mods,
      lookupA (Snapshot.mk [("FLAG", "2"), ("E", "old")]
        [("FLAG", ["mA"]), ("E", ["mB"])]).values k = some s ∧ s ≠ "" ∧ t ≠ s ∧
      lookupA (Snapshot.mk [("FLAG", "2"), ("E", "old")]
        [("FLAG", ["mA"]), ("E", ["mB"])]).modulesUsingKey k = some mods ∧
      "mA" ∈ mods :=
  empty_text_keys_contribute_nothing 3 1 ⟨true⟩
    ⟨[("FLAG", "2"), ("E", "old")], [("FLAG", ["mA"]), ("E", ["mB"])]⟩
    [("FLAG", CodeValue.str "1"), ("E", CodeValue.str "")] ["mA"]
    [("FLAG", "1"), ("E", "")] "mA" (by decide) (by decide) (by decide)

/-- C3: for a module path in the invalidation set, the first resolution
lookup of that path (after load, with a nonempty snapshot) marks the request
to bypass the resolver cache and removes exactly that path from the set;
a second lookup of the same path in the same build delegates to the normal
cached resolution with the request unmarked; and on a miss, or after the
hit, the original resolution handler is invoked unconditionally. -/
theorem resolution_gate_one_shot {α : Type} (originalTapFn : Request → α)
    (resolveFn : String → String → String) (g : Globals) (req : Request)
    (hce : g.cacheEmpty = false)
    (hnd : g.invalidModulePaths.Nodup)
    (hp : resolveFn req.issuer req.request ∈ g.invalidModulePaths) :
    ∃ g2 : Globals,
      tapFnLoaded originalTapFn resolveFn g req
        = (g2, originalTapFn { req with forceRealResolve := true }) ∧
      resolveFn req.issuer req.request ∉ g2.invalidModulePaths ∧
      g2.cacheEmpty = false ∧
      (∀ q : String, q ≠ resolveFn req.issuer req.request →
        (q ∈ g2.invalidModulePaths ↔ q ∈ g.invalidModulePaths)) ∧
      (∀ req2 : Request, resolveFn req2.issuer req2.request
          = resolveFn req.issuer req.request →
        tapFnLoaded originalTapFn resolveFn g2 req2 = (g2, originalTapFn req2)) ∧
      (∀ req3 : Request,
        resolveFn req3.issuer req3.request ∉ g.invalidModulePaths →
        tapFnLoaded originalTapFn resolveFn g req3 = (g, originalTapFn req3)) := by
  refine ⟨{ g with invalidModulePaths :=
      g.invalidModulePaths.erase (resolveFn req.issuer req.request) },
    ?_, ?_, hce, ?_, ?_, ?_⟩
  · unfold tapFnLoaded
    simp [hce, hp]
  · exact hnd.not_mem_erase
  · intro q hq
    exact List.mem_erase_of_ne hq
  · intro req2 heq
    unfold tapFnLoaded
    have hnot : resolveFn req2.issuer req2.request ∉
        g.invalidModulePaths.erase (resolveFn req.issuer req.request) := by
      rw [heq]
      exact hnd.not_mem_erase
    simp [hce, hnot]
  · intro req3 hnot
    unfold tapFnLoaded
    simp [hce, hnot]

/-- Witness for C3 at a concrete input: invalidation set `[/x/a.js]`, a
resolver mapping every request to `/x/a.js`; the first lookup marks the
request and empties the set. -/
theorem resolution_gate_one_shot_witness :
    ∃ g2 : Globals,
      tapFnLoaded (fun r => r) (fun _ _ => "/x/a.js")
          ⟨[], [], false, false, ["/x/a.js"], false⟩ ⟨"/x/i.js", "./a", false⟩
        = (g2, (⟨"/x/i.js", "./a", true⟩ : Request)) ∧
      "/x/a.js" ∉ g2.invalidModulePaths := by
  obtain ⟨g2, h1, h2, -, -, -, -⟩ :=
    resolution_gate_one_shot (fun r => r) (fun _ _ => "/x/a.js")
      ⟨[], [], false, false, ["/x/a.js"], false⟩ ⟨"/x/i.js", "./a", false⟩
      rfl (by decide) (by decide)
  exact ⟨g2, h1, h2⟩

/-- C6: a snapshot load failure never blocks module resolution: when the
cache read reports an error the reconcile promise is rejected, and every
lookup that waits on it still invokes the original resolution handler with
its request unchanged (no bypass marking, no invalidations). -/
theorem rejected_load_fails_open {α : Type} (originalTapFn : Request → α)
    (resolveFn : String → String → String) (fuel tcFuel : Nat) (env : Env)
    (defs : List (String × CodeValue)) (g : Globals)
    (raw : Option Snapshot) (req : Request) :
    cacheGetCallback fuel tcFuel env defs g true raw = .rejected ∧
    tapFn originalTapFn resolveFn
        (cacheGetCallback fuel tcFuel env defs g true raw) req
      = (.rejected, some (originalTapFn req)) ∧
    tapFn originalTapFn resolveFn .rejected req
      = (.rejected, some (originalTapFn req)) :=
  ⟨rfl, rfl, rfl⟩

/-- C9: resolving a Runtime Value against a module's build metadata has
exactly the claimed effects: with `fileDependencies === true` the cacheable
flag is cleared and the file-dependency set untouched; with a dependency
list every declared path is added to the file-dependency set and the
cacheable flag untouched; in both cases the compute function is invoked
with a context exposing the (updated) current module and its result is
returned. -/
theorem runtime_value_exec_effects (m : Module)
    (fn : Option Module → CodeValue) (ps : List String) :
    (execRuntime .isTrue fn ⟨some m⟩
      = (⟨some { m with buildInfo := { m.buildInfo with cacheable := false } }⟩,
        fn (some { m with buildInfo :=
          { m.buildInfo with cacheable := false } }))) ∧
    (∃ m2 : Module,
      execRuntime (.paths ps) fn ⟨some m⟩ = (⟨some m2⟩, fn (some m2)) ∧
      m2.request = m.request ∧
      m2.buildInfo.cacheable = m.buildInfo.cacheable ∧
      (∀ p : String, p ∈ m2.buildInfo.fileDependencies ↔
        p ∈ m.buildInfo.fileDependencies ∨ p ∈ ps)) := by
  constructor
  · rfl
  · refine ⟨Module.mk m.request
      (BuildInfo.mk m.buildInfo.cacheable
        (ps.foldl addSet m.buildInfo.fileDependencies)), rfl, rfl, rfl, ?_⟩
    intro p
    exact mem_foldl_addSet ps _ p

/-- C5: the reconciler's load-time recomputation triggers no module-specific
side effects: resolving a Runtime Value with the neutral (moduleless) parser
state returns the compute function's result on the neutral context and
leaves the state untouched, a runtime-value leaf is serialized by recursing
on that neutral result, and any successful `toCode` run from the neutral
state ends in the neutral state (no build metadata to mark exists). -/
theorem neutral_recompute_no_side_effects :
    (∀ (deps : FileDeps) (fn : Option Module → CodeValue),
      execRuntime deps fn neutralParser = (neutralParser, fn none)) ∧
    (∀ (fuel : Nat) (env : Env) (deps : FileDeps)
        (fn : Option Module → CodeValue) (asi : AsiSafe),
      toCode (fuel + 1) env (.runtime deps fn) neutralParser asi
        = toCode fuel env (fn none) neutralParser asi) ∧
    (∀ (fuel : Nat) (env : Env) (v : CodeValue) (asi : AsiSafe)
        (out : String × ParserState),
      toCode fuel env v neutralParser asi = some out → out.2 = neutralParser) := by
  refine ⟨fun deps fn => rfl, fun fuel env deps fn asi => rfl, ?_⟩
  intro fuel env
  exact (neutral_all fuel env).1

/-- Witness for C5 at a concrete input: a runtime-value leaf over the
neutral context serializes successfully and ends in the neutral state. -/
theorem neutral_recompute_no_side_effects_witness :
    toCode 2 ⟨true⟩ (.runtime (.paths ["p"]) (fun _ => CodeValue.num 5))
        neutralParser .unneeded = some ("5", neutralParser) ∧
    (("5", neutralParser) : String × ParserState).2 = neutralParser :=
  ⟨by decide,
    neutral_recompute_no_side_effects.2.2 2 ⟨true⟩
      (.runtime (.paths ["p"]) (fun _ => CodeValue.num 5)) .unneeded
      ("5", neutralParser) (by decide)⟩

theorem hookCallback_none {R : Type} (key moduleRequest : String)
    (cb : HookState → Option (String × R) × HookState) (hs hs2 : HookState)
    (h : cb hs = (none, hs2)) :
    hookCallback key moduleRequest cb hs = (none, hs2) := by
  unfold hookCallback
  rw [h]

theorem identCb_guard {R : Type} (fuel : Nat) (env : Env) (code : CodeValue)
    (evalExpr : String → HookState → R × HookState) (hs : HookState)
    (h : hs.recurse = true) :
    identCb fuel env code evalExpr hs = (none, hs) := by
  unfold identCb
  simp [h]

theorem typeofEvalCb_guard {R : Type} (fuel : Nat) (env : Env)
    (isTypeof : Bool) (code : CodeValue)
    (evalExpr : String → HookState → R × HookState) (hs : HookState)
    (h : hs.recurseTypeof = true) :
    typeofEvalCb fuel env isTypeof code evalExpr hs = (none, hs) := by
  unfold typeofEvalCb
  simp [h]

/-- C4: the snapshot is persisted at most once per build and only when both
gating conditions hold: the store fires exactly when the persist flag is not
yet set and code generation was recorded; once it fired, a re-entrant
completion signal is a no-op; over any number of completion signals the
store runs at most once; a build that recorded no substitution never stores;
and recording a substitution (a hook callback producing a result) is what
sets the code-generation flag. -/
theorem snapshot_persist_once_gated :
    (∀ g : Globals, (afterCompileHook g).2 = true ↔
      (g.didAfterCompileHookRun = false ∧ g.didCodeGeneration = true)) ∧
    (∀ g : Globals, (afterCompileHook g).2 = true →
      afterCompileHook (afterCompileHook g).1
        = ((afterCompileHook g).1, false)) ∧
    (∀ (g : Globals) (n : Nat), (afterCompileRuns g n).2 ≤ 1) ∧
    (∀ (g : Globals) (n : Nat), g.didCodeGeneration = false →
      (afterCompileRuns g n).2 = 0) ∧
    (∀ (R : Type) (key moduleRequest : String)
        (cb : HookState → Option (String × R) × HookState) (hs : HookState)
        (r : R) (hs2 : HookState),
      hookCallback key moduleRequest cb hs = (some r, hs2) →
      hs2.globals.didCodeGeneration = true) := by
  refine ⟨afterCompileHook_store_iff, ?_, fun g n => afterCompileRuns_le_one n g,
    fun g n => afterCompileRuns_no_codegen n g, ?_⟩
  · intro g h
    rw [afterCompileHook_store_iff] at h
    obtain ⟨hA, hC⟩ := h
    simp [afterCompileHook, hA, hC]
  · intro R key moduleRequest cb hs r hs2 h
    unfold hookCallback at h
    cases hcb : cb hs with
    | mk r0 hsX =>
      rw [hcb] at h
      cases r0 with
      | none => simp at h
      | some p =>
        obtain ⟨strCode, result⟩ := p
        replace h : (some result,
            ({ hsX with globals := { hsX.globals with
              didCodeGeneration := true,
              values := setAssoc hsX.globals.values key strCode,
              modulesUsingKey := setAssoc hsX.globals.modulesUsingKey key
                ((lookupA hsX.globals.modulesUsingKey key).getD []
                  ++ [moduleRequest]) } } : HookState)) = (some r, hs2) := h
        have h2 : ({ hsX with globals := { hsX.globals with
            didCodeGeneration := true,
            values := setAssoc hsX.globals.values key strCode,
            modulesUsingKey := setAssoc hsX.globals.modulesUsingKey key
              ((lookupA hsX.globals.modulesUsingKey key).getD []
                ++ [moduleRequest]) } } : HookState) = hs2 :=
          congrArg Prod.snd h
        rw [← h2]

/-- Witness for C4 at concrete inputs: a completed store makes the next
signal a no-op; five signals on a build without code generation store
nothing; a hook callback producing a result sets the code-generation flag. -/
theorem snapshot_persist_once_gated_witness :
    afterCompileHook (afterCompileHook ⟨[], [], true, false, [], false⟩).1
      = ((afterCompileHook ⟨[], [], true, false, [], false⟩).1, false) ∧
    (afterCompileRuns ⟨[], [], false, false, [], false⟩ 5).2 = 0 ∧
    (⟨⟨[("k", "1")], [("k", ["m"])], true, false, [], false⟩, false, false,
        neutralParser⟩ : HookState).globals.didCodeGeneration = true :=
  ⟨snapshot_persist_once_gated.2.1 ⟨[], [], true, false, [], false⟩ (by decide),
    snapshot_persist_once_gated.2.2.2.1 ⟨[], [], false, false, [], false⟩ 5
      (by decide),
    snapshot_persist_once_gated.2.2.2.2 Bool "k" "m"
      (fun h => (some ("1", true), h))
      ⟨⟨[], [], false, false, [], false⟩, false, false, neutralParser⟩ true
      ⟨⟨[("k", "1")], [("k", ["m"])], true, false, [], false⟩, false, false,
        neutralParser⟩ (by decide)⟩

/-- C7: a re-entrant invocation of the identifier-evaluation behavior (or of
the typeof-evaluation behavior) for the same key returns no result with the
state untouched instead of recursing; the two behaviors use independent
re-entrancy flags, so each proceeds to produce a result while only the other
flag is set; and whenever a wrapped behavior produces no result, the hook
callback records nothing in the run state (it returns exactly the behavior's
state). -/
theorem recursion_guards_and_no_result_no_record :
    (∀ (R : Type) (key moduleRequest : String) (fuel : Nat) (env : Env)
        (code : CodeValue) (evalExpr : String → HookState → R × HookState)
        (hs : HookState), hs.recurse = true →
      hookCallback key moduleRequest (identCb fuel env code evalExpr) hs
        = (none, hs)) ∧
    (∀ (R : Type) (key moduleRequest : String) (fuel : Nat) (env : Env)
        (isTypeof : Bool) (code : CodeValue)
        (evalExpr : String → HookState → R × HookState) (hs : HookState),
      hs.recurseTypeof = true →
      hookCallback key moduleRequest
          (typeofEvalCb fuel env isTypeof code evalExpr) hs
        = (none, hs)) ∧
    (∀ (R : Type) (fuel : Nat) (env : Env) (isTypeof : Bool)
        (code : CodeValue) (evalExpr : String → HookState → R × HookState)
        (hs : HookState) (sc : String) (pst : ParserState),
      hs.recurseTypeof = false →
      toCode fuel env code hs.pstate .unneeded = some (sc, pst) →
      ∃ (r : R) (hs2 : HookState),
        typeofEvalCb fuel env isTypeof code evalExpr hs
          = (some (sc, r), hs2)) ∧
    (∀ (R : Type) (fuel : Nat) (env : Env) (code : CodeValue)
        (evalExpr : String → HookState → R × HookState)
        (hs : HookState) (sc : String) (pst : ParserState),
      hs.recurse = false →
      toCode fuel env code hs.pstate .unneeded = some (sc, pst) →
      ∃ (r : R) (hs2 : HookState),
        identCb fuel env code evalExpr hs = (some (sc, r), hs2)) ∧
    (∀ (R : Type) (key moduleRequest : String)
        (cb : HookState → Option (String × R) × HookState) (hs hs2 : HookState),
      cb hs = (none, hs2) →
      hookCallback key moduleRequest cb hs = (none, hs2)) := by
  refine ⟨?_, ?_, ?_, ?_, ?_⟩
  · intro R key moduleRequest fuel env code evalExpr hs h
    exact hookCallback_none key moduleRequest _ hs hs
      (identCb_guard fuel env code evalExpr hs h)
  · intro R key moduleRequest fuel env isTypeof code evalExpr hs h
    exact hookCallback_none key moduleRequest _ hs hs
      (typeofEvalCb_guard fuel env isTypeof code evalExpr hs h)
  · intro R fuel env isTypeof code evalExpr hs sc pst hflag htc
    refine ⟨(evalExpr (if isTypeof then sc else "typeof (" ++ sc ++ ")")
        { hs with recurseTypeof := true, pstate := pst }).1,
      { (evalExpr (if isTypeof then sc else "typeof (" ++ sc ++ ")")
          { hs with recurseTypeof := true, pstate := pst }).2
        with recurseTypeof := false }, ?_⟩
    simp [typeofEvalCb, hflag, htc]
  · intro R fuel env code evalExpr hs sc pst hflag htc
    refine ⟨(evalExpr sc { hs with recurse := true, pstate := pst }).1,
      { (evalExpr sc { hs with recurse := true, pstate := pst }).2
        with recurse := false }, ?_⟩
    simp [identCb, hflag, htc]
  · intro R key moduleRequest cb hs hs2 h
    exact hookCallback_none key moduleRequest cb hs hs2 h

/-- Witness for C7 at a concrete input: with the identifier re-entrancy flag
set, the wrapped identifier evaluation returns no result and leaves the
state (run state included) untouched. -/
theorem recursion_guards_and_no_result_no_record_witness :
    hookCallback "k" "m"
        (identCb 1 ⟨true⟩ CodeValue.nullV (fun _ h => ((true : Bool), h)))
        ⟨⟨[], [], false, false, [], false⟩, true, false, neutralParser⟩
      = (none, ⟨⟨[], [], false, false, [], false⟩, true, false, neutralParser⟩) :=
  recursion_guards_and_no_result_no_record.1 Bool "k" "m" 1 ⟨true⟩
    CodeValue.nullV (fun _ h => (true, h))
    ⟨⟨[], [], false, false, [], false⟩, true, false, neutralParser⟩ rfl

theorem stringifyObj_arr_eq (fuel : Nat) (env : Env) (xs : List CodeValue)
    (st : ParserState) (asi : AsiSafe) :
    stringifyObj (fuel + 1) env (.arr xs) st asi
      = match toCodeList fuel env xs st with
        | none => none
        | some (cs, st2) =>
          some (asiWrap asi true ("[" ++ String.intercalate "," cs ++ "]"), st2) :=
  rfl

theorem stringifyObj_obj_eq (fuel : Nat) (env : Env)
    (fs : List (String × CodeValue)) (st : ParserState) (asi : AsiSafe) :
    stringifyObj (fuel + 1) env (.obj fs) st asi
      = match toCodeFields fuel env fs st with
        | none => none
        | some (cs, st2) =>
          some (asiWrap asi false
            ("\x7b" ++ String.intercalate "," cs ++ "\x7d"), st2) :=
  rfl

/-- C8: for an array the asiSafe = null serialization is the raw literal
text, asiSafe = true leaves it unwrapped, asiSafe = false prefixes a
semicolon, and any other asiSafe wraps it in `Object(...)`; for a mapping
asiSafe = true parenthesizes, asiSafe = false prefixes a semicolon to the
parenthesized text, and any other asiSafe wraps in `Object(...)`; in both
cases the raw text is built from element/value serializations that pass
asiSafe = null (the equations for `toCodeList`/`toCodeFields` make the
nested `toCode` calls with `.unneeded` explicit). -/
theorem stringifyObj_asi_wrapping :
    (∀ (fuel : Nat) (env : Env) (xs : List CodeValue) (st st2 : ParserState)
        (raw : String),
      stringifyObj (fuel + 1) env (.arr xs) st .unneeded = some (raw, st2) →
      stringifyObj (fuel + 1) env (.arr xs) st .safe = some (raw, st2) ∧
      stringifyObj (fuel + 1) env (.arr xs) st .notSafe
        = some (";" ++ raw, st2) ∧
      stringifyObj (fuel + 1) env (.arr xs) st .unknown
        = some ("Object(" ++ raw ++ ")", st2) ∧
      ∃ cs, toCodeList fuel env xs st = some (cs, st2) ∧
        raw = "[" ++ String.intercalate "," cs ++ "]") ∧
    (∀ (fuel : Nat) (env : Env) (fs : List (String × CodeValue))
        (st st2 : ParserState) (raw : String),
      stringifyObj (fuel + 1) env (.obj fs) st .unneeded = some (raw, st2) →
      stringifyObj (fuel + 1) env (.obj fs) st .safe
        = some ("(" ++ raw ++ ")", st2) ∧
      stringifyObj (fuel + 1) env (.obj fs) st .notSafe
        = some (";(" ++ raw ++ ")", st2) ∧
      stringifyObj (fuel + 1) env (.obj fs) st .unknown
        = some ("Object(" ++ raw ++ ")", st2) ∧
      ∃ cs, toCodeFields fuel env fs st = some (cs, st2) ∧
        raw = "\x7b" ++ String.intercalate "," cs ++ "\x7d") ∧
    (∀ (fuel : Nat) (env : Env) (x : CodeValue) (xs : List CodeValue)
        (st : ParserState),
      toCodeList (fuel + 1) env (x :: xs) st
        = match toCode fuel env x st .unneeded with
          | none => none
          | some (s, st1) =>
            match toCodeList fuel env xs st1 with
            | none => none
            | some (cs, st2) => some (s :: cs, st2)) ∧
    (∀ (fuel : Nat) (env : Env) (k : String) (v : CodeValue)
        (fs : List (String × CodeValue)) (st : ParserState),
      toCodeFields (fuel + 1) env ((k, v) :: fs) st
        = match toCode fuel env v st .unneeded with
          | none => none
          | some (s, st1) =>
            match toCodeFields fuel env fs st1 with
            | none => none
            | some (cs, st2) =>
              some ((jsonStringify k ++ ":" ++ s) :: cs, st2)) := by
  refine ⟨?_, ?_, fun fuel env x xs st => rfl, fun fuel env k v fs st => rfl⟩
  · intro fuel env xs st st2 raw h
    rw [stringifyObj_arr_eq] at h
    cases hl : toCodeList fuel env xs st with
    | none => rw [hl] at h; cases h
    | some p =>
      obtain ⟨cs, st3⟩ := p
      rw [hl] at h
      replace h : some ("[" ++ String.intercalate "," cs ++ "]", st3)
          = some (raw, st2) := h
      have heq := Option.some.inj h
      have hr : "[" ++ String.intercalate "," cs ++ "]" = raw :=
        congrArg Prod.fst heq
      have hst : st3 = st2 := congrArg Prod.snd heq
      subst hst
      subst hr
      refine ⟨?_, ?_, ?_, cs, rfl, rfl⟩
      · rw [stringifyObj_arr_eq, hl]; exact rfl
      · rw [stringifyObj_arr_eq, hl]; exact rfl
      · rw [stringifyObj_arr_eq, hl]; exact rfl
  · intro fuel env fs st st2 raw h
    rw [stringifyObj_obj_eq] at h
    cases hl : toCodeFields fuel env fs st with
    | none => rw [hl] at h; cases h
    | some p =>
      obtain ⟨cs, st3⟩ := p
      rw [hl] at h
      replace h : some ("\x7b" ++ String.intercalate "," cs ++ "\x7d", st3)
          = some (raw, st2) := h
      have heq := Option.some.inj h
      have hr : "\x7b" ++ String.intercalate "," cs ++ "\x7d" = raw :=
        congrArg Prod.fst heq
      have hst : st3 = st2 := congrArg Prod.snd heq
      subst hst
      subst hr
      refine ⟨?_, ?_, ?_, cs, rfl, rfl⟩
      · rw [stringifyObj_obj_eq, hl]; exact rfl
      · rw [stringifyObj_obj_eq, hl]; exact rfl
      · rw [stringifyObj_obj_eq, hl]; exact rfl

/-- Witness for C8 at a concrete input: the empty array serializes raw as
`[]`, stays unwrapped under asiSafe = true and gains a semicolon prefix
under asiSafe = false. -/
theorem stringifyObj_asi_wrapping_witness :
    stringifyObj 2 ⟨true⟩ (.arr []) neutralParser .safe
      = some ("[]", neutralParser) ∧
    stringifyObj 2 ⟨true⟩ (.arr []) neutralParser .notSafe
      = some (";[]", neutralParser) := by
  obtain ⟨h1, h2, -, -⟩ :=
    stringifyObj_asi_wrapping.1 1 ⟨true⟩ [] neutralParser neutralParser "[]"
      (by decide)
  exact ⟨h1, h2⟩

end DefineSpec
